import Mathlib

/-!
Shallow embedding of the intent-kit decision engine: the Intent data model,
the architecture classifier, the technology/infrastructure selectors and the
stack assembler (src/core/stack.ts and src/core/intent.ts), the validator
(the ValidationResult-returning validateIntent), and the template renderer
(src/core/generator.ts).  All regex tests in the source are alternations of
ASCII literals under the /i flag, modelled as case-insensitive substring
containment (lowercase the requirement, check each literal for list-infix).
-/

namespace IntentKit

/-- Scale levels (src/core/intent.ts, enum ScaleLevel). -/
inductive ScaleLevel where
  | solo
  | startup
  | team
  | enterprise
  deriving DecidableEq, Repr

/-- Optional constraints carried by an intent (src/core/intent.ts, Constraints).
Absent optional fields are `none`. -/
structure Constraints where
  languages : Option (List String) := none
  platforms : Option (List String) := none
  avoid : Option (List String) := none
  budgetLevel : Option String := none
  deriving DecidableEq, Repr

/-- The decision engine's Intent record (src/core/intent.ts, Intent). -/
structure Intent where
  name : String
  scale : ScaleLevel
  requirements : List String
  features : Option (List String) := none
  constraints : Option Constraints := none
  deriving DecidableEq, Repr

/-- Architecture patterns (src/core/stack.ts, enum Architecture). -/
inductive Architecture where
  | monolith
  | microservices
  | serverless
  | jamstack
  deriving DecidableEq, Repr

/-- String value of each Architecture enum member. -/
def architectureStr : Architecture → String
  | .monolith => "monolith"
  | .microservices => "microservices"
  | .serverless => "serverless"
  | .jamstack => "jamstack"

/-- String value of each ScaleLevel enum member. -/
def scaleLevelStr : ScaleLevel → String
  | .solo => "solo"
  | .startup => "startup"
  | .team => "team"
  | .enterprise => "enterprise"

structure BackendTech where
  language : String
  framework : String
  runtime : Option String := none
  deriving DecidableEq, Repr

structure FrontendTech where
  framework : String
  language : String
  buildTool : Option String := none
  deriving DecidableEq, Repr

/-- The `type` field of DatabaseTech ('sql' | 'nosql' | 'hybrid'). -/
inductive DatabaseKind where
  | sql
  | nosql
  | hybrid
  deriving DecidableEq, Repr

structure DatabaseTech where
  kind : DatabaseKind
  engine : String
  deriving DecidableEq, Repr

structure MessagingTech where
  type : String
  provider : Option String := none
  deriving DecidableEq, Repr

structure Technologies where
  backend : Option BackendTech := none
  frontend : Option FrontendTech := none
  database : Option DatabaseTech := none
  messaging : Option MessagingTech := none
  deriving DecidableEq, Repr

structure Infrastructure where
  containerization : String
  orchestration : Option String := none
  cicd : Option String := none
  deriving DecidableEq, Repr

/-- A file to generate: path plus registered template name plus optional
per-file context overrides (src/core/stack.ts, FileTemplate).  Context
values are modelled by `JValue` below; `none` means no `context` field. -/
structure FileTemplate where
  path : String
  template : String
  deriving DecidableEq, Repr

structure ProjectStructure where
  directories : List String
  files : List FileTemplate
  deriving DecidableEq, Repr

/-- The assembled stack (src/core/stack.ts, Stack).  The TS field named
`structure` is a Lean keyword, hence `structure'`. -/
structure Stack where
  name : String
  description : String
  architecture : Architecture
  technologies : Technologies
  infrastructure : Infrastructure
  structure' : ProjectStructure
  deriving DecidableEq, Repr

/-- ASCII lowercasing of one character, the case folding performed by the
/i regex flag on the ASCII-only patterns used in the source. -/
def foldChar (c : Char) : Char :=
  if 65 ≤ c.toNat ∧ c.toNat ≤ 90 then Char.ofNat (c.toNat + 32) else c

/-- Case-fold a string to its list of (ASCII-lowercased) characters. -/
def foldCase (s : String) : List Char := s.toList.map foldChar

/-- `/p1|p2|…/i.test req` for literal alternatives `pats` (all given in
lowercase): some literal occurs as a contiguous substring of the
case-folded requirement. -/
def matchesPat (pats : List String) (req : String) : Bool :=
  pats.any fun p => decide (p.toList <:+: foldCase req)

/-- Literals of /serverless|lambda|function/i (src/core/stack.ts line 117). -/
def serverlessPats : List String := ["serverless", "lambda", "function"]

/-- Literals of /static|jamstack|blog|documentation/i (line 125). -/
def staticPats : List String := ["static", "jamstack", "blog", "documentation"]

/-- Literals of /real-?time|websocket|chat/i (line 146): the optional hyphen
expands to the two literals "real-time" and "realtime". -/
def realtimePats : List String := ["real-time", "realtime", "websocket", "chat"]

/-- Literals of /mobile|ios|android|react native/i (line 150). -/
def mobilePats : List String := ["mobile", "ios", "android", "react native"]

/-- Literals of /frontend|web|ui|interface/i (line 181). -/
def frontendPats : List String := ["frontend", "web", "ui", "interface"]

/-- Literals of /database|storage|persist/i (line 190). -/
def databasePats : List String := ["database", "storage", "persist"]

/-- Literals of /flexible schema|unstructured|document/i (line 192). -/
def nosqlPats : List String := ["flexible schema", "unstructured", "document"]

/-- StackSelector.selectArchitecture (src/core/stack.ts lines 112-142). -/
def selectArchitecture (intent : Intent) : Architecture :=
  if intent.requirements.any (matchesPat serverlessPats) then
    .serverless
  else if intent.requirements.any (matchesPat staticPats) then
    .jamstack
  else
    match intent.scale with
    | .solo => .monolith
    | .startup => .monolith
    | .team => .microservices
    | .enterprise => .microservices

/-- `intent.constraints?.languages?.[0]` (src/core/stack.ts line 157). -/
def preferredLang (intent : Intent) : Option String :=
  (intent.constraints.bind Constraints.languages).bind List.head?

/-- StackSelector.selectTechnologies (src/core/stack.ts lines 144-213). -/
def selectTechnologies (intent : Intent) (architecture : Architecture) : Technologies :=
  let hasRealtimeReq := intent.requirements.any (matchesPat realtimePats)
  let hasMobileReq := intent.requirements.any (matchesPat mobilePats)
  let backend : Option BackendTech :=
    if architecture = .jamstack then
      none
    else if preferredLang intent = some "python" then
      some { language := "Python", framework := "FastAPI", runtime := some "Python 3.11" }
    else if preferredLang intent = some "go" then
      some { language := "Go", framework := "Gin", runtime := some "Go 1.21" }
    else
      some { language := "TypeScript", framework := "Express", runtime := some "Node.js 20" }
  let frontend : Option FrontendTech :=
    if intent.requirements.any (matchesPat frontendPats) then
      some { framework := if hasMobileReq then "React Native" else "React",
             language := "TypeScript", buildTool := some "Vite" }
    else
      none
  let database : Option DatabaseTech :=
    if intent.requirements.any (matchesPat databasePats) then
      if intent.requirements.any (matchesPat nosqlPats) then
        some { kind := .nosql, engine := "MongoDB" }
      else
        some { kind := .sql, engine := "PostgreSQL" }
    else
      none
  let messaging : Option MessagingTech :=
    if hasRealtimeReq || architecture = .microservices then
      some { type := if hasRealtimeReq then "WebSocket" else "Message Queue",
             provider := some (if hasRealtimeReq then "Socket.io" else "RabbitMQ") }
    else
      none
  { backend := backend, frontend := frontend, database := database, messaging := messaging }

/-- StackSelector.selectInfrastructure (src/core/stack.ts lines 215-232). -/
def selectInfrastructure (intent : Intent) : Infrastructure :=
  match intent.scale with
  | .enterprise =>
      { containerization := "docker", orchestration := some "kubernetes",
        cicd := some "github-actions" }
  | .team =>
      { containerization := "docker", orchestration := some "docker-compose",
        cicd := some "github-actions" }
  | _ =>
      { containerization := "docker", orchestration := some "docker-compose",
        cicd := some "github-actions" }

/-- StackSelector.generateStructure (src/core/stack.ts lines 234-260). -/
def generateStructure (_intent : Intent) (architecture : Architecture) : ProjectStructure :=
  let base := ["src", "tests", "docs"]
  let directories :=
    if architecture = .microservices then
      base ++ ["services", "shared", "infrastructure"]
    else if architecture = .monolith then
      base ++ ["src/api", "src/models", "src/services", "src/utils"]
    else
      base
  { directories := directories,
    files := [ { path := "README.md", template := "readme" },
               { path := ".gitignore", template := "gitignore" },
               { path := "docker-compose.yml", template := "docker-compose" } ] }

/-- StackSelector.selectStack (src/core/stack.ts lines 96-110). -/
def selectStack (intent : Intent) : Stack :=
  let architecture := selectArchitecture intent
  { name := scaleLevelStr intent.scale ++ "-" ++ architectureStr architecture,
    description := architectureStr architecture ++ " architecture for "
      ++ scaleLevelStr intent.scale ++ " scale",
    architecture := architecture,
    technologies := selectTechnologies intent architecture,
    infrastructure := selectInfrastructure intent,
    structure' := generateStructure intent architecture }

/-- The Intent of spec Scenario 1. -/
def chatAppIntent : Intent :=
  { name := "chat-app", scale := .startup,
    requirements := ["real-time messaging", "user authentication",
                     "mobile-friendly interface", "database for message history"] }

/-- The Intent of spec Scenario 2. -/
def enterpriseIntent : Intent :=
  { name := "x", scale := .enterprise,
    requirements := ["Scalable platform", "Multiple teams"] }

/-- Specification-side reading of a /i regex test: some literal alternative
occurs as a contiguous substring of the case-folded requirement. -/
def SpecMatches (pats : List String) (req : String) : Prop :=
  ∃ p ∈ pats, p.toList <:+: foldCase req

instance (pats : List String) (req : String) : Decidable (SpecMatches pats req) := by
  unfold SpecMatches
  infer_instance

/-- The implementation's boolean matcher agrees with the specification-side
substring predicate. -/
theorem matchesPat_iff (pats : List String) (req : String) :
    matchesPat pats req = true ↔ SpecMatches pats req := by
  simp [matchesPat, SpecMatches, List.any_eq_true]

/-- Some requirement of the intent matches the pattern list. -/
theorem any_matchesPat_iff (pats : List String) (i : Intent) :
    i.requirements.any (matchesPat pats) = true
      ↔ ∃ r ∈ i.requirements, SpecMatches pats r := by
  simp [List.any_eq_true, matchesPat_iff]

/-- Some requirement matches the real-time pattern /real-?time|websocket|chat/i. -/
def RealtimeReq (i : Intent) : Prop :=
  ∃ r ∈ i.requirements, SpecMatches realtimePats r

instance (i : Intent) : Decidable (RealtimeReq i) := by
  unfold RealtimeReq
  infer_instance

/-- Valid scale levels of the ValidationResult-returning validator module
(VALID_SCALE_LEVELS). -/
def VALID_SCALE_LEVELS : List String := ["solo", "startup", "team", "enterprise"]

/-- The validator module's Intent record.  `scaleLevel` is kept as a raw
string so that the scale-level membership check is meaningful. -/
structure VIntent where
  name : String
  scaleLevel : String
  requirements : List String
  deriving DecidableEq, Repr

structure ValidationResult where
  valid : Bool
  errors : List String
  deriving DecidableEq, Repr

/-- `s.trim() === ''`: every character of `s` is whitespace (also covers the
falsiness check `!s`, since the empty string qualifies vacuously). -/
def blankStr (s : String) : Bool := s.toList.all Char.isWhitespace

/-- The ValidationResult-returning validateIntent.  `includes` is modelled as
list membership, `length === 0` as emptiness, and the
`filter(nonString or blank).length > 0` test as existence of a blank
requirement. -/
def validateIntent (intent : VIntent) : ValidationResult :=
  let errors :=
    (if blankStr intent.name then ["Intent must have a non-empty name"] else [])
    ++ (if intent.scaleLevel ∈ VALID_SCALE_LEVELS then []
        else ["Scale level must be one of: " ++ String.intercalate ", " VALID_SCALE_LEVELS])
    ++ (if intent.requirements = [] then ["Intent must have a non-empty requirements array"]
        else if ∃ r ∈ intent.requirements, blankStr r = true then
          ["All requirements must be non-empty strings"]
        else [])
  { valid := errors.isEmpty, errors := errors }

/-- The name check passes: the name is not blank. -/
def vNameOk (i : VIntent) : Prop := blankStr i.name = false

instance (i : VIntent) : Decidable (vNameOk i) := by
  unfold vNameOk
  infer_instance

/-- The scale-level check passes. -/
def vScaleOk (i : VIntent) : Prop := i.scaleLevel ∈ VALID_SCALE_LEVELS

instance (i : VIntent) : Decidable (vScaleOk i) := by
  unfold vScaleOk
  infer_instance

/-- The requirements check passes: a non-empty list of non-blank strings. -/
def vReqOk (i : VIntent) : Prop :=
  i.requirements ≠ [] ∧ ∀ r ∈ i.requirements, blankStr r = false

instance (i : VIntent) : Decidable (vReqOk i) := by
  unfold vReqOk
  infer_instance

/-- The 3-way ArchitectureType of the recommendation module
(vscode-extension/src/intentKit.ts). -/
inductive ArchitectureType where
  | monolith
  | modularMonolith
  | microservices
  deriving DecidableEq, Repr

/-- Modelled from the spec: `isArchitectureSuitable(scaleLevel, architecture)`
is exported by src/index.ts and exercised by tests/stack.test.ts, but its
defining module is missing from the provided sources.  Following spec §8
Scenario 4 and the test expectations: monolith suits every scale,
modular-monolith suits startup and team, microservices suits enterprise. -/
def isArchitectureSuitable (scale : ScaleLevel) (arch : ArchitectureType) : Bool :=
  match arch with
  | .monolith => true
  | .modularMonolith => scale == .startup || scale == .team
  | .microservices => scale == .enterprise

/-- C1: for the chat-app Intent of Scenario 1, selectStack chooses a monolith
architecture, a React Native frontend, a PostgreSQL database and WebSocket
messaging. -/
theorem selectStack_chatApp :
    (selectStack chatAppIntent).architecture = .monolith
    ∧ (selectStack chatAppIntent).technologies.frontend.map FrontendTech.framework
        = some "React Native"
    ∧ (selectStack chatAppIntent).technologies.database.map DatabaseTech.engine
        = some "PostgreSQL"
    ∧ (selectStack chatAppIntent).technologies.messaging.map MessagingTech.type
        = some "WebSocket" := by
  decide

/-- C2: the keyword-aware classifier returns serverless whenever some
requirement matches /serverless|lambda|function/i regardless of scale;
otherwise jamstack whenever some requirement matches
/static|jamstack|blog|documentation/i; otherwise monolith for solo/startup
and microservices for team/enterprise. -/
theorem selectArchitecture_spec (i : Intent) :
    ((∃ r ∈ i.requirements, SpecMatches serverlessPats r)
        → selectArchitecture i = .serverless)
    ∧ ((¬ ∃ r ∈ i.requirements, SpecMatches serverlessPats r)
        → (∃ r ∈ i.requirements, SpecMatches staticPats r)
        → selectArchitecture i = .jamstack)
    ∧ ((¬ ∃ r ∈ i.requirements, SpecMatches serverlessPats r)
        → (¬ ∃ r ∈ i.requirements, SpecMatches staticPats r)
        → ((i.scale = .solo ∨ i.scale = .startup) → selectArchitecture i = .monolith)
          ∧ ((i.scale = .team ∨ i.scale = .enterprise)
              → selectArchitecture i = .microservices)) := by
  refine ⟨?_, ?_, ?_⟩
  · intro h
    have hb : i.requirements.any (matchesPat serverlessPats) = true :=
      (any_matchesPat_iff _ i).mpr h
    simp [selectArchitecture, hb]
  · intro hns hst
    have hb1 : i.requirements.any (matchesPat serverlessPats) = false := by
      rcases h : i.requirements.any (matchesPat serverlessPats) with _ | _
      · rfl
      · exact absurd ((any_matchesPat_iff _ i).mp h) hns
    have hb2 : i.requirements.any (matchesPat staticPats) = true :=
      (any_matchesPat_iff _ i).mpr hst
    simp [selectArchitecture, hb1, hb2]
  · intro hns hst
    have hb1 : i.requirements.any (matchesPat serverlessPats) = false := by
      rcases h : i.requirements.any (matchesPat serverlessPats) with _ | _
      · rfl
      · exact absurd ((any_matchesPat_iff _ i).mp h) hns
    have hb2 : i.requirements.any (matchesPat staticPats) = false := by
      rcases h : i.requirements.any (matchesPat staticPats) with _ | _
      · rfl
      · exact absurd ((any_matchesPat_iff _ i).mp h) hst
    constructor
    · rintro (hs | hs) <;> simp [selectArchitecture, hb1, hb2, hs]
    · rintro (hs | hs) <;> simp [selectArchitecture, hb1, hb2, hs]

/-- An intent with a serverless-keyword requirement at enterprise scale. -/
def lambdaIntent : Intent :=
  { name := "fn", scale := .enterprise, requirements := ["deploy lambda handlers"] }

/-- An intent with a static-site keyword and no serverless keyword. -/
def blogIntent : Intent :=
  { name := "blog", scale := .team, requirements := ["a blog with posts"] }

/-- An intent with no architecture keywords at solo scale. -/
def plainSoloIntent : Intent :=
  { name := "p", scale := .solo, requirements := ["track expenses"] }

/-- An intent with no architecture keywords at team scale. -/
def plainTeamIntent : Intent :=
  { name := "q", scale := .team, requirements := ["track expenses"] }

/-- Witness for C2: each branch of the classifier exercised on a concrete
intent. -/
theorem selectArchitecture_spec_witness :
    selectArchitecture lambdaIntent = .serverless
    ∧ selectArchitecture blogIntent = .jamstack
    ∧ selectArchitecture plainSoloIntent = .monolith
    ∧ selectArchitecture plainTeamIntent = .microservices :=
  ⟨(selectArchitecture_spec lambdaIntent).1 (by decide),
   (selectArchitecture_spec blogIntent).2.1 (by decide) (by decide),
   ((selectArchitecture_spec plainSoloIntent).2.2 (by decide) (by decide)).1
     (Or.inl rfl),
   ((selectArchitecture_spec plainTeamIntent).2.2 (by decide) (by decide)).2
     (Or.inl rfl)⟩

/-- C3: every check of the validator runs and contributes exactly one error
message when it fails; `valid` holds iff the error list is empty; and the
Scenario 3 intent yields exactly the two expected errors. -/
theorem validateIntent_spec :
    (∀ i : VIntent,
      ((validateIntent i).valid = true ↔ (validateIntent i).errors = [])
      ∧ (validateIntent i).errors.length
          = ((if vNameOk i then 0 else 1) + (if vScaleOk i then 0 else 1)
              + (if vReqOk i then 0 else 1)))
    ∧ validateIntent { name := "", scaleLevel := "solo", requirements := [] }
        = { valid := false,
            errors := ["Intent must have a non-empty name",
                       "Intent must have a non-empty requirements array"] } := by
  constructor
  · intro i
    constructor
    · simp [validateIntent, List.isEmpty_iff]
    · have hiff : vReqOk i
          ↔ (i.requirements ≠ [] ∧ ¬ ∃ r ∈ i.requirements, blankStr r = true) := by
        unfold vReqOk
        simp
      by_cases hn : blankStr i.name
      all_goals by_cases hs : i.scaleLevel ∈ VALID_SCALE_LEVELS
      all_goals by_cases he : i.requirements = []
      all_goals by_cases hb : ∃ r ∈ i.requirements, blankStr r = true
      all_goals
        simp [validateIntent, vNameOk, vScaleOk, hiff, hn, hs, he, hb]
  · decide

/-- The backend selected for a "python" first preferred language. -/
def pythonBackend : BackendTech :=
  { language := "Python", framework := "FastAPI", runtime := some "Python 3.11" }

/-- The backend selected for a "go" first preferred language. -/
def goBackend : BackendTech :=
  { language := "Go", framework := "Gin", runtime := some "Go 1.21" }

/-- The default backend. -/
def defaultBackend : BackendTech :=
  { language := "TypeScript", framework := "Express", runtime := some "Node.js 20" }

/-- C4 (amended): backend selection is skipped iff the architecture is
jamstack; otherwise only the first entry of constraints.languages is
consulted: "python" yields the Python backend, "go" the Go backend, and any
other first entry or an absent/empty list yields the default. -/
theorem backend_selection (i : Intent) (a : Architecture) :
    (a = .jamstack → (selectTechnologies i a).backend = none)
    ∧ (a ≠ .jamstack →
        (selectTechnologies i a).backend
          = some (if preferredLang i = some "python" then pythonBackend
                  else if preferredLang i = some "go" then goBackend
                  else defaultBackend)) := by
  constructor
  · intro h
    simp [selectTechnologies, h]
  · intro h
    by_cases hp : preferredLang i = some "python"
    · simp [selectTechnologies, h, hp, pythonBackend]
    · by_cases hg : preferredLang i = some "go"
      · simp [selectTechnologies, h, hp, hg, goBackend]
      · simp [selectTechnologies, h, hp, hg, defaultBackend]

/-- Witness for C4's amended theorem: the jamstack branch and the
first-entry-"python" branch at concrete intents. -/
theorem backend_selection_witness :
    (selectTechnologies blogIntent .jamstack).backend = none
    ∧ (selectTechnologies
          { name := "py", scale := .solo, requirements := ["an api"],
            constraints := some { languages := some ["python", "go"] } }
          .monolith).backend = some pythonBackend :=
  ⟨(backend_selection blogIntent .jamstack).1 rfl,
   by
    have h := (backend_selection
      { name := "py", scale := .solo, requirements := ["an api"],
        constraints := some { languages := some ["python", "go"] } }
      .monolith).2 (by decide)
    rw [h]
    decide⟩

/-- Intent whose constraints.languages contains "python", but not in first
position. -/
def rustPythonIntent : Intent :=
  { name := "api", scale := .solo, requirements := ["serve requests"],
    constraints := some { languages := some ["rust", "python"] } }

/-- Counterexample to C4 as stated: "python" occurs in constraints.languages
(second position) and the architecture is not jamstack, yet the selected
backend is the TypeScript/Express default, not Python/FastAPI — only the
first list entry is ever consulted. -/
theorem backend_ignores_later_languages :
    "python" ∈ (["rust", "python"] : List String)
    ∧ rustPythonIntent.constraints = some { languages := some ["rust", "python"] }
    ∧ selectArchitecture rustPythonIntent ≠ .jamstack
    ∧ (selectTechnologies rustPythonIntent (selectArchitecture rustPythonIntent)).backend
        ≠ some pythonBackend
    ∧ (selectTechnologies rustPythonIntent (selectArchitecture rustPythonIntent)).backend
        = some defaultBackend := by
  decide

/-- C5: messaging is present iff some requirement matches
/real-?time|websocket|chat/i or the architecture is microservices; its type
is WebSocket exactly when the real-time pattern matched, Message Queue when
only the microservices condition holds.  The Scenario 2 enterprise intent
gets Message Queue messaging with no real-time keyword. -/
theorem messaging_spec :
    (∀ (i : Intent) (a : Architecture),
      ((selectTechnologies i a).messaging.isSome = true
          ↔ (RealtimeReq i ∨ a = .microservices))
      ∧ (selectTechnologies i a).messaging.map MessagingTech.type
          = (if RealtimeReq i then some "WebSocket"
             else if a = .microservices then some "Message Queue" else none))
    ∧ ((selectStack enterpriseIntent).architecture = .microservices
        ∧ (selectStack enterpriseIntent).technologies.messaging.map MessagingTech.type
            = some "Message Queue"
        ∧ ¬ RealtimeReq enterpriseIntent) := by
  constructor
  · intro i a
    by_cases hrt : RealtimeReq i
    · have hb : i.requirements.any (matchesPat realtimePats) = true :=
        (any_matchesPat_iff _ i).mpr hrt
      constructor
      · simp [selectTechnologies, hb, hrt]
      · simp [selectTechnologies, hb, hrt]
    · have hb : i.requirements.any (matchesPat realtimePats) = false := by
        rcases h : i.requirements.any (matchesPat realtimePats) with _ | _
        · rfl
        · exact absurd ((any_matchesPat_iff _ i).mp h) hrt
      by_cases ha : a = .microservices
      · constructor
        · simp [selectTechnologies, hb, hrt, ha]
        · simp [selectTechnologies, hb, hrt, ha]
      · constructor
        · simp [selectTechnologies, hb, hrt, ha]
        · simp [selectTechnologies, hb, hrt, ha]
  · refine ⟨by decide, by decide, by decide⟩

/-- C9: microservices is unsuitable at solo scale, monolith is suitable at
team scale, and monolith is suitable at every scale. -/
theorem isArchitectureSuitable_spec :
    isArchitectureSuitable .solo .microservices = false
    ∧ isArchitectureSuitable .team .monolith = true
    ∧ ∀ s : ScaleLevel, isArchitectureSuitable s .monolith = true :=
  ⟨rfl, rfl, fun _ => rfl⟩

/-- JavaScript values reachable by the template renderer's context lookups.
`Option JValue` distinguishes `undefined` (`none`) from `null`
(`some vnull`).  Numbers are modelled as integers (no template in the
source substitutes a fractional value). -/
inductive JValue where
  | vnull
  | vbool (b : Bool)
  | vnum (n : Int)
  | vstr (s : String)
  | varr (elems : List JValue)
  | vobj (fields : List (String × JValue))

mutual

/-- JS default `String(value)` conversion: null stringifies to "null",
arrays to their comma-joined elements, plain objects to
"[object Object]". -/
def jsString : JValue → String
  | .vnull => "null"
  | .vbool true => "true"
  | .vbool false => "false"
  | .vnum n => toString n
  | .vstr s => s
  | .varr elems => String.intercalate "," (jsStringElems elems)
  | .vobj _ => "[object Object]"

/-- Inside `Array.prototype.toString`, null elements become empty strings. -/
def jsStringElems : List JValue → List String
  | [] => []
  | .vnull :: rest => "" :: jsStringElems rest
  | v :: rest => jsString v :: jsStringElems rest

end

/-- One step of `current?.[key]`: field lookup on an object, `undefined` on
null and on primitives (built-in properties such as `length`, which no
template in the source accesses, are not modelled). -/
def getProp : JValue → String → Option JValue
  | .vobj fields, key => fields.lookup key
  | _, _ => none

/-- Generator.getNestedValue: `path.split('.').reduce((cur, k) => cur?.[k], obj)`. -/
def getNestedValue (ctx : JValue) (segs : List String) : Option JValue :=
  segs.foldl (fun cur key => cur.bind fun v => getProp v key) (some ctx)

/-- Drop an expected literal prefix, or fail. -/
def dropPfx : List Char → List Char → Option (List Char)
  | [], l => some l
  | _ :: _, [] => none
  | p :: ps, c :: cs => if p = c then dropPfx ps cs else none

/-- The head of a conditional block. -/
def openIfChars : List Char := ['\x7b', '\x7b', '#', 'i', 'f', ' ']

/-- The closer of a conditional block. -/
def closeIfChars : List Char := ['\x7b', '\x7b', '/', 'i', 'f', '\x7d', '\x7d']

/-- Two opening braces. -/
def openBracesChars : List Char := ['\x7b', '\x7b']

/-- Two closing braces. -/
def closeBracesChars : List Char := ['\x7d', '\x7d']

/-- `[^}]`: any character other than a closing brace. -/
def notRBrace (c : Char) : Bool := c != '\x7d'

/-- Scan for the first occurrence of the block closer, returning what follows
it (the lazy `[\s\S]*?` of the stripping regex). -/
def findClose : List Char → Option (List Char)
  | [] => none
  | c :: rest =>
    match dropPfx closeIfChars (c :: rest) with
    | some r => some r
    | none => findClose rest

/-- Try to match one conditional block at the current position: the head,
one or more non-brace condition characters, two closing braces, then the
lazily-found closer.  Returns the text after the whole block. -/
def matchBlock (l : List Char) : Option (List Char) :=
  match dropPfx openIfChars l with
  | none => none
  | some r1 =>
    if (r1.takeWhile notRBrace).isEmpty then none
    else
      match dropPfx closeBracesChars (r1.dropWhile notRBrace) with
      | none => none
      | some r3 => findClose r3

theorem dropPfx_eq_some_iff {p l r : List Char} :
    dropPfx p l = some r ↔ l = p ++ r := by
  induction p generalizing l with
  | nil => simp [dropPfx]
  | cons a ps ih =>
    cases l with
    | nil => simp [dropPfx]
    | cons c cs =>
      by_cases h : a = c
      · subst h
        simp [dropPfx, ih]
      · simp [dropPfx, h]
        intro h'
        exact absurd h'.symm h

theorem dropPfx_length {p l r : List Char} (h : dropPfx p l = some r) :
    l.length = p.length + r.length := by
  rw [dropPfx_eq_some_iff] at h
  subst h
  simp

theorem length_dropWhile_le (p : Char → Bool) (l : List Char) :
    (l.dropWhile p).length ≤ l.length := by
  induction l with
  | nil => simp [List.dropWhile]
  | cons c rest ih =>
    rw [List.dropWhile]
    cases p c
    · simp
    · simpa using Nat.le_succ_of_le ih

theorem findClose_length {l r : List Char} (h : findClose l = some r) :
    r.length < l.length := by
  induction l with
  | nil => simp [findClose] at h
  | cons c rest ih =>
    rw [findClose] at h
    rcases hd : dropPfx closeIfChars (c :: rest) with _ | r'
    · rw [hd] at h
      exact Nat.lt_succ_of_lt (ih h)
    · rw [hd] at h
      cases h
      have h1 := dropPfx_length hd
      have h2 : (c :: rest).length = rest.length + 1 := by simp
      have h3 : closeIfChars.length = 7 := rfl
      omega

theorem matchBlock_length {l r : List Char} (h : matchBlock l = some r) :
    r.length < l.length := by
  rw [matchBlock] at h
  rcases hd : dropPfx openIfChars l with _ | r1
  · rw [hd] at h
    exact absurd h (by simp)
  · rw [hd] at h
    by_cases he : (r1.takeWhile notRBrace).isEmpty
    · simp [he] at h
    · simp only [he, if_false, Bool.false_eq_true] at h
      rcases hd2 : dropPfx closeBracesChars (r1.dropWhile notRBrace) with _ | r3
      · rw [hd2] at h
        exact absurd h (by simp)
      · rw [hd2] at h
        have h1 := dropPfx_length hd
        have h2 := length_dropWhile_le notRBrace r1
        have h3 := dropPfx_length hd2
        have h4 := findClose_length h
        simp [openIfChars, closeBracesChars] at h1 h3
        omega

/-- First pass of Generator.simpleTemplateEngine: the global replacement of
every conditional block by the empty string (leftmost match, scanning
resumes after each removed block). -/
def stripCondList (l : List Char) : List Char :=
  match hm : matchBlock l with
  | some r => stripCondList r
  | none =>
    match l with
    | [] => []
    | c :: rest => c :: stripCondList rest
termination_by l.length
decreasing_by
  · exact matchBlock_length hm
  · simp

/-- `\w`: ASCII letters, digits and underscore. -/
def wordChar (c : Char) : Bool := c.isAlphanum || c == '_'

/-- Parse the `(?:\.\w+)*` repetitions of the substitution pattern: as long
as a dot is followed by a non-empty word-character run, consume both and
collect the run; stop (without consuming) otherwise. -/
def parseDots (l : List Char) : List String × List Char :=
  match l with
  | '.' :: rest =>
    if (rest.takeWhile wordChar).isEmpty then ([], l)
    else
      let res := parseDots (rest.dropWhile wordChar)
      (String.mk (rest.takeWhile wordChar) :: res.1, res.2)
  | _ => ([], l)
termination_by l.length
decreasing_by
  have := length_dropWhile_le wordChar rest
  simp
  omega

theorem parseDots_length (l : List Char) : (parseDots l).2.length ≤ l.length := by
  induction l using parseDots.induct with
  | case1 rest hemp =>
    rw [parseDots, if_pos hemp]
  | case2 rest hne ih =>
    rw [parseDots, if_neg hne]
    have := length_dropWhile_le wordChar rest
    simp only []
    simp
    omega
  | case3 l hne =>
    rw [parseDots]
    all_goals first
      | exact fun rest h => hne rest h
      | simp

/-- Try to match one substitution token `(two open braces)\w+(\.\w+)*(two
close braces)` at the current position; return the parsed dotted path and
the rest of the input. -/
def matchToken (l : List Char) : Option (List String × List Char) :=
  match dropPfx openBracesChars l with
  | none => none
  | some r1 =>
    if (r1.takeWhile wordChar).isEmpty then none
    else
      match dropPfx closeBracesChars (parseDots (r1.dropWhile wordChar)).2 with
      | none => none
      | some r3 => some (String.mk (r1.takeWhile wordChar) :: (parseDots (r1.dropWhile wordChar)).1, r3)

theorem matchToken_length {l : List Char} {segs : List String} {r : List Char}
    (h : matchToken l = some (segs, r)) : r.length < l.length := by
  rw [matchToken] at h
  rcases hd : dropPfx openBracesChars l with _ | r1
  · rw [hd] at h
    exact absurd h (by simp)
  · rw [hd] at h
    by_cases he : (r1.takeWhile wordChar).isEmpty
    · simp [he] at h
    · simp only [he, if_false, Bool.false_eq_true] at h
      rcases hd2 : dropPfx closeBracesChars (parseDots (r1.dropWhile wordChar)).2 with _ | r3
      · rw [hd2] at h
        exact absurd h (by simp)
      · rw [hd2] at h
        have h1 := dropPfx_length hd
        have h2 := length_dropWhile_le wordChar r1
        have h3 := parseDots_length (r1.dropWhile wordChar)
        have h4 := dropPfx_length hd2
        have h5 : openBracesChars.length = 2 := rfl
        have h6 : closeBracesChars.length = 2 := rfl
        cases h
        omega

/-- The dotted path as it appeared in the source text. -/
def dottedPath : List String → List Char
  | [] => []
  | [s] => s.toList
  | s :: rest => s.toList ++ '.' :: dottedPath rest

/-- The replacement for one token: `String(value)` when the path resolves to
anything but `undefined`; otherwise the original matched token text. -/
def renderToken (ctx : JValue) (segs : List String) : List Char :=
  match getNestedValue ctx segs with
  | some v => (jsString v).toList
  | none => openBracesChars ++ dottedPath segs ++ closeBracesChars

/-- Second pass of Generator.simpleTemplateEngine: the global substitution of
dotted-path tokens. -/
def substList (ctx : JValue) (l : List Char) : List Char :=
  match hm : matchToken l with
  | some sr => renderToken ctx sr.1 ++ substList ctx sr.2
  | none =>
    match l with
    | [] => []
    | c :: rest => c :: substList ctx rest
termination_by l.length
decreasing_by
  · exact matchToken_length (by rw [hm])
  · simp

/-- Generator.simpleTemplateEngine: strip conditional blocks, then
substitute variables. -/
def simpleTemplateEngine (template : String) (context : JValue) : String :=
  String.mk (substList context (stripCondList template.toList))

/-- The source text of a substitution token for the given path segments. -/
def mkToken (segs : List String) : String :=
  String.mk (openBracesChars ++ dottedPath segs ++ closeBracesChars)

/-- The rendering context `(intent, stack, spread of fileTemplate.context)`:
overrides win, so they come first in lookup order. -/
def mkRenderContext (intentJ stackJ : JValue) (overrides : List (String × JValue)) : JValue :=
  .vobj (overrides ++ [("intent", intentJ), ("stack", stackJ)])

/-- Generator.renderTemplate: look the template up in the registry (an
association list, first match wins); if absent, return the visible
placeholder comment instead of failing. -/
def renderTemplate (registry : List (String × String)) (ft : FileTemplate)
    (intentJ stackJ : JValue) (overrides : List (String × JValue)) : String :=
  match registry.lookup ft.template with
  | none => "# Template \x27" ++ ft.template ++ "\x27 not found\n"
  | some t => simpleTemplateEngine t (mkRenderContext intentJ stackJ overrides)

theorem stripCondList_nil : stripCondList [] = [] := by
  rw [stripCondList.eq_def]
  rfl

theorem stripCondList_block {l r : List Char} (h : matchBlock l = some r) :
    stripCondList l = stripCondList r := by
  rw [stripCondList.eq_def]
  split
  · rename_i r' hr
    rw [h] at hr
    cases hr
    rfl
  · rename_i hr
    rw [h] at hr
    cases hr

theorem stripCondList_cons_none {c : Char} {rest : List Char}
    (h : matchBlock (c :: rest) = none) :
    stripCondList (c :: rest) = c :: stripCondList rest := by
  rw [stripCondList.eq_def]
  split
  · rename_i r' hr
    rw [h] at hr
    cases hr
  · rfl

theorem substList_token {ctx : JValue} {l : List Char} {sr : List String × List Char}
    (h : matchToken l = some sr) :
    substList ctx l = renderToken ctx sr.1 ++ substList ctx sr.2 := by
  rw [substList.eq_def]
  split
  · rename_i sr' hr
    rw [h] at hr
    cases hr
    rfl
  · rename_i hr
    rw [h] at hr
    cases hr

theorem substList_cons_none {ctx : JValue} {c : Char} {rest : List Char}
    (h : matchToken (c :: rest) = none) :
    substList ctx (c :: rest) = c :: substList ctx rest := by
  rw [substList.eq_def]
  split
  · rename_i sr' hr
    rw [h] at hr
    cases hr
  · rfl

theorem matchBlock_none_of_head {c : Char} {rest : List Char} (h : c ≠ '\x7b') :
    matchBlock (c :: rest) = none := by
  rw [matchBlock]
  have : dropPfx openIfChars (c :: rest) = none := by
    rw [openIfChars, dropPfx, if_neg (fun hh => h hh.symm)]
  rw [this]

theorem matchToken_none_of_head {c : Char} {rest : List Char} (h : c ≠ '\x7b') :
    matchToken (c :: rest) = none := by
  rw [matchToken]
  have : dropPfx openBracesChars (c :: rest) = none := by
    rw [openBracesChars, dropPfx, if_neg (fun hh => h hh.symm)]
  rw [this]

theorem matchBlock_some_hash {l r : List Char} (h : matchBlock l = some r) :
    '#' ∈ l := by
  rw [matchBlock] at h
  rcases hd : dropPfx openIfChars l with _ | r1
  · rw [hd] at h
    exact absurd h (by simp)
  · rw [dropPfx_eq_some_iff] at hd
    rw [hd, openIfChars]
    simp

/-- A hash-free text passes the conditional-stripping pass unchanged. -/
theorem stripCondList_of_no_hash {l : List Char} (h : '#' ∉ l) :
    stripCondList l = l := by
  induction l with
  | nil => exact stripCondList_nil
  | cons c rest ih =>
    have hm : matchBlock (c :: rest) = none := by
      rcases hb : matchBlock (c :: rest) with _ | r
      · rfl
      · exact absurd (matchBlock_some_hash hb) h
    rw [stripCondList_cons_none hm, ih (fun hr => h (List.mem_cons_of_mem c hr))]

/-- The stripping pass walks over a brace-free prefix untouched. -/
theorem stripCondList_append {l r : List Char} (h : '\x7b' ∉ l) :
    stripCondList (l ++ r) = l ++ stripCondList r := by
  induction l with
  | nil => simp
  | cons c rest ih =>
    have hc : c ≠ '\x7b' := fun hh => h (hh ▸ List.mem_cons_self c rest)
    rw [List.cons_append, stripCondList_cons_none (matchBlock_none_of_head hc),
      ih (fun hr => h (List.mem_cons_of_mem c hr))]
    rfl

/-- The substitution pass walks over a brace-free prefix untouched. -/
theorem substList_append {ctx : JValue} {l r : List Char} (h : '\x7b' ∉ l) :
    substList ctx (l ++ r) = l ++ substList ctx r := by
  induction l with
  | nil => simp
  | cons c rest ih =>
    have hc : c ≠ '\x7b' := fun hh => h (hh ▸ List.mem_cons_self c rest)
    rw [List.cons_append, substList_cons_none (matchToken_none_of_head hc),
      ih (fun hr => h (List.mem_cons_of_mem c hr))]
    rfl

theorem takeWhile_all_append {p : Char → Bool} {pre : List Char} {d : Char}
    {rest : List Char} (hall : ∀ c ∈ pre, p c = true) (hd : p d = false) :
    (pre ++ d :: rest).takeWhile p = pre
    ∧ (pre ++ d :: rest).dropWhile p = d :: rest := by
  induction pre with
  | nil => simp [List.takeWhile_cons, List.dropWhile_cons, hd]
  | cons a l ih =>
    have ha : p a = true := hall a (List.mem_cons_self a l)
    have ih2 := ih (fun c hc => hall c (List.mem_cons_of_mem a hc))
    simp [List.takeWhile_cons, List.dropWhile_cons, ha, ih2.1, ih2.2]

/-- The lazy search finds the closer right after a brace-free body. -/
theorem findClose_block {body post : List Char} (h : '\x7b' ∉ body) :
    findClose (body ++ (closeIfChars ++ post)) = some post := by
  induction body with
  | nil =>
    have hcons : ([] : List Char) ++ (closeIfChars ++ post)
        = '\x7b' :: ('\x7b' :: '/' :: 'i' :: 'f' :: '\x7d' :: '\x7d' :: post) := rfl
    rw [hcons, findClose]
    have hdp : dropPfx closeIfChars
        ('\x7b' :: ('\x7b' :: '/' :: 'i' :: 'f' :: '\x7d' :: '\x7d' :: post)) = some post :=
      dropPfx_eq_some_iff.mpr rfl
    simp [hdp]
  | cons c rest ih =>
    have hc : c ≠ '\x7b' := fun hh => h (hh ▸ List.mem_cons_self c rest)
    have hdp : dropPfx closeIfChars (c :: (rest ++ (closeIfChars ++ post))) = none := by
      rw [closeIfChars, dropPfx, if_neg (fun hh => hc hh.symm)]
    rw [List.cons_append, findClose]
    simp [hdp, ih (fun hr => h (List.mem_cons_of_mem c hr))]

/-- A well-formed conditional block matches at its own head, and the match
consumes exactly the block. -/
theorem matchBlock_block {cond body post : List Char}
    (hc1 : cond ≠ []) (hc2 : '\x7d' ∉ cond) (hb : '\x7b' ∉ body) :
    matchBlock (openIfChars
        ++ (cond ++ (closeBracesChars ++ (body ++ (closeIfChars ++ post)))))
      = some post := by
  rw [matchBlock]
  have h1 : dropPfx openIfChars (openIfChars
      ++ (cond ++ (closeBracesChars ++ (body ++ (closeIfChars ++ post)))))
      = some (cond ++ (closeBracesChars ++ (body ++ (closeIfChars ++ post)))) :=
    dropPfx_eq_some_iff.mpr rfl
  rw [h1]
  dsimp only
  have hshape : cond ++ (closeBracesChars ++ (body ++ (closeIfChars ++ post)))
      = cond ++ '\x7d' :: ('\x7d' :: (body ++ (closeIfChars ++ post))) := rfl
  have hall : ∀ c ∈ cond, notRBrace c = true := by
    intro c hc
    have : c ≠ '\x7d' := fun hh => hc2 (hh ▸ hc)
    simp [notRBrace, this]
  have hd : notRBrace '\x7d' = false := rfl
  have htw := @takeWhile_all_append notRBrace cond '\x7d'
    ('\x7d' :: (body ++ (closeIfChars ++ post))) hall hd
  rw [hshape, htw.1, htw.2]
  have hne : cond.isEmpty = false := by simp [hc1]
  rw [hne]
  have h2 : dropPfx closeBracesChars ('\x7d' :: ('\x7d' :: (body ++ (closeIfChars ++ post))))
      = some (body ++ (closeIfChars ++ post)) := dropPfx_eq_some_iff.mpr rfl
  simp only [Bool.false_eq_true, if_false, h2]
  exact findClose_block hb

/-- C6: rendering a template containing a `(open braces)#if COND …
(open braces)/if(close braces)` block removes the whole block from the
output for EVERY condition text COND, and for every context — no
conditional evaluation takes place.  `pre` and the block body are
brace-free, COND is non-empty and free of closing braces. -/
theorem conditional_block_removed (ctx : JValue) (pre cond body post : String)
    (hpre : '\x7b' ∉ pre.toList) (hc1 : cond.toList ≠ []) (hc2 : '\x7d' ∉ cond.toList)
    (hb : '\x7b' ∉ body.toList) :
    simpleTemplateEngine
        (pre ++ "\x7b\x7b#if " ++ cond ++ "\x7d\x7d" ++ body ++ "\x7b\x7b/if\x7d\x7d" ++ post)
        ctx
      = simpleTemplateEngine (pre ++ post) ctx := by
  unfold simpleTemplateEngine
  have htl : (pre ++ "\x7b\x7b#if " ++ cond ++ "\x7d\x7d" ++ body ++ "\x7b\x7b/if\x7d\x7d" ++ post).toList
      = pre.toList ++ (openIfChars
          ++ (cond.toList ++ (closeBracesChars
            ++ (body.toList ++ (closeIfChars ++ post.toList))))) := by
    simp [String.toList, String.data_append, openIfChars, closeBracesChars, closeIfChars]
  have htl2 : (pre ++ post).toList = pre.toList ++ post.toList := by
    simp [String.toList, String.data_append]
  rw [htl, htl2, stripCondList_append hpre, stripCondList_append hpre,
    stripCondList_block (matchBlock_block hc1 hc2 hb)]

/-- Witness for C6: a concrete template with a conditional block renders
identically to the same template with the block deleted. -/
theorem conditional_block_removed_witness :
    ('\x7b' ∉ ("Hello " : String).toList)
    ∧ simpleTemplateEngine
        ("Hello " ++ "\x7b\x7b#if " ++ "user.loggedIn" ++ "\x7d\x7d" ++ "welcome back"
          ++ "\x7b\x7b/if\x7d\x7d" ++ "!") (JValue.vobj [])
      = simpleTemplateEngine ("Hello " ++ "!") (JValue.vobj []) :=
  ⟨by decide,
   conditional_block_removed (JValue.vobj []) "Hello " "user.loggedIn" "welcome back" "!"
     (by decide) (by decide) (by decide) (by decide)⟩

theorem mk_toList (s : String) : String.mk s.toList = s := rfl

theorem dottedPath_cons2 {s s2 : String} {r2 : List String} :
    dottedPath (s :: s2 :: r2) = s.toList ++ '.' :: dottedPath (s2 :: r2) := by
  rw [dottedPath]
  all_goals first
    | rfl
    | (intro h
       exact absurd h (by simp))

/-- Every character of a dotted path is a dot or comes from a segment. -/
theorem dottedPath_mem {segs : List String} {c : Char} (h : c ∈ dottedPath segs) :
    c = '.' ∨ ∃ s ∈ segs, c ∈ s.toList := by
  induction segs with
  | nil => simp [dottedPath] at h
  | cons s rest ih =>
    cases rest with
    | nil =>
      right
      exact ⟨s, List.mem_cons_self s [], h⟩
    | cons s2 r2 =>
      rw [dottedPath_cons2] at h
      rcases List.mem_append.mp h with h1 | h2
      · right
        exact ⟨s, List.mem_cons_self s (s2 :: r2), h1⟩
      · rcases List.mem_cons.mp h2 with h3 | h4
        · exact Or.inl h3
        · rcases ih h4 with h5 | ⟨t, ht, hc⟩
          · exact Or.inl h5
          · exact Or.inr ⟨t, List.mem_cons_of_mem s ht, hc⟩

theorem parseDots_other {c : Char} {l : List Char} (h : c ≠ '.') :
    parseDots (c :: l) = ([], c :: l) := by
  rw [parseDots]
  all_goals first
    | rfl
    | (intro rest hh
       injection hh with h1 _
       exact h h1)

/-- The repetition parser consumes exactly the dotted continuation of a
well-formed path, stopping at the closing brace. -/
theorem parseDots_dotted {segs : List String} {z : List Char}
    (hwf : ∀ s ∈ segs, s.toList ≠ [] ∧ ∀ c ∈ s.toList, wordChar c = true)
    (hne : segs ≠ []) :
    parseDots ('.' :: (dottedPath segs ++ '\x7d' :: z)) = (segs, '\x7d' :: z) := by
  induction segs with
  | nil => exact absurd rfl hne
  | cons s rest ih =>
    have hs := hwf s (List.mem_cons_self s rest)
    have hwd : wordChar '\x7d' = false := rfl
    cases rest with
    | nil =>
      have htw := @takeWhile_all_append wordChar s.toList '\x7d' z hs.2 hwd
      rw [dottedPath, parseDots, if_neg (by rw [htw.1]; simpa [String.toList] using hs.1)]
      dsimp only
      rw [htw.1, htw.2, parseDots_other (by decide)]
      simp [mk_toList]
    | cons s2 r2 =>
      have hdot : wordChar '.' = false := rfl
      have hshape : dottedPath (s :: s2 :: r2) ++ '\x7d' :: z
          = s.toList ++ '.' :: (dottedPath (s2 :: r2) ++ '\x7d' :: z) := by
        rw [dottedPath_cons2]
        simp
      have htw := @takeWhile_all_append wordChar s.toList '.'
        (dottedPath (s2 :: r2) ++ '\x7d' :: z) hs.2 hdot
      rw [parseDots]
      rw [hshape, if_neg (by rw [htw.1]; simpa [String.toList] using hs.1)]
      dsimp only
      rw [htw.1, htw.2,
        ih (fun t ht => hwf t (List.mem_cons_of_mem s ht)) (by simp)]
      simp [mk_toList]

/-- A well-formed substitution token matches at its own head, yielding
exactly its path segments and the text after the token. -/
theorem matchToken_token {segs : List String} {post : List Char}
    (hwf : ∀ s ∈ segs, s.toList ≠ [] ∧ ∀ c ∈ s.toList, wordChar c = true)
    (hne : segs ≠ []) :
    matchToken (openBracesChars ++ (dottedPath segs ++ '\x7d' :: ('\x7d' :: post)))
      = some (segs, post) := by
  rw [matchToken]
  have h1 : dropPfx openBracesChars
      (openBracesChars ++ (dottedPath segs ++ '\x7d' :: ('\x7d' :: post)))
      = some (dottedPath segs ++ '\x7d' :: ('\x7d' :: post)) :=
    dropPfx_eq_some_iff.mpr rfl
  rw [h1]
  dsimp only
  have hwd : wordChar '\x7d' = false := rfl
  cases segs with
  | nil => exact absurd rfl hne
  | cons s rest =>
    have hs := hwf s (List.mem_cons_self s rest)
    cases rest with
    | nil =>
      have htw := @takeWhile_all_append wordChar s.toList '\x7d' ('\x7d' :: post) hs.2 hwd
      have hshape : dottedPath [s] ++ '\x7d' :: ('\x7d' :: post)
          = s.toList ++ '\x7d' :: ('\x7d' :: post) := rfl
      rw [hshape, htw.1, htw.2]
      rw [if_neg (by simpa [String.toList] using hs.1)]
      rw [parseDots_other (by decide)]
      have h2 : dropPfx closeBracesChars ('\x7d' :: ('\x7d' :: post)) = some post :=
        dropPfx_eq_some_iff.mpr rfl
      simp [h2, mk_toList]
    | cons s2 r2 =>
      have hdot : wordChar '.' = false := rfl
      have hshape : dottedPath (s :: s2 :: r2) ++ '\x7d' :: ('\x7d' :: post)
          = s.toList ++ '.' :: (dottedPath (s2 :: r2) ++ '\x7d' :: ('\x7d' :: post)) := by
        rw [dottedPath_cons2]
        simp
      have htw := @takeWhile_all_append wordChar s.toList '.'
        (dottedPath (s2 :: r2) ++ '\x7d' :: ('\x7d' :: post)) hs.2 hdot
      rw [hshape, htw.1, htw.2]
      rw [if_neg (by simpa [String.toList] using hs.1)]
      rw [parseDots_dotted (fun t ht => hwf t (List.mem_cons_of_mem s ht)) (by simp)]
      have h2 : dropPfx closeBracesChars ('\x7d' :: ('\x7d' :: post)) = some post :=
        dropPfx_eq_some_iff.mpr rfl
      simp [h2, mk_toList]

/-- Rendering a text made of an inert prefix, one well-formed substitution
token and an arbitrary rest substitutes exactly that token (by
`renderToken`) and renders the rest. -/
theorem engine_token (ctx : JValue) (pre post : String) (segs : List String)
    (hwf : ∀ s ∈ segs, s.toList ≠ [] ∧ ∀ c ∈ s.toList, wordChar c = true)
    (hne : segs ≠ [])
    (hpre1 : '\x7b' ∉ pre.toList) (hpre2 : '#' ∉ pre.toList)
    (hpost : '#' ∉ post.toList) :
    simpleTemplateEngine (pre ++ mkToken segs ++ post) ctx
      = pre ++ String.mk (renderToken ctx segs) ++ simpleTemplateEngine post ctx := by
  have hlist : (pre ++ mkToken segs ++ post).toList
      = pre.toList
        ++ (openBracesChars ++ (dottedPath segs ++ '\x7d' :: ('\x7d' :: post.toList))) := by
    simp [String.toList, String.data_append, mkToken, openBracesChars, closeBracesChars]
  have hnh : '#' ∉ (pre ++ mkToken segs ++ post).toList := by
    rw [hlist]
    intro hmem
    rcases List.mem_append.mp hmem with h1 | h2
    · exact hpre2 h1
    · rcases List.mem_append.mp h2 with h3 | h4
      · simp [openBracesChars] at h3
      · rcases List.mem_append.mp h4 with h5 | h6
        · rcases dottedPath_mem h5 with he | ⟨s, hsm, hcm⟩
          · exact absurd he (by decide)
          · exact absurd ((hwf s hsm).2 '#' hcm) (by decide)
        · simp at h6
          exact hpost h6
  have hmt := @matchToken_token segs post.toList hwf hne
  unfold simpleTemplateEngine
  rw [stripCondList_of_no_hash hnh, hlist, substList_append hpre1,
    substList_token hmt, stripCondList_of_no_hash hpost]
  apply String.ext
  simp [String.toList, String.data_append, renderToken]

/-- C7: a substitution token whose dotted path does not resolve in the
context (`getNestedValue` is `undefined`) is left in the output as the
literal original token; rendering is total (never throws) and never blanks
the token. -/
theorem unresolved_token_left (ctx : JValue) (pre post : String) (segs : List String)
    (hwf : ∀ s ∈ segs, s.toList ≠ [] ∧ ∀ c ∈ s.toList, wordChar c = true)
    (hne : segs ≠ [])
    (hres : getNestedValue ctx segs = none)
    (hpre1 : '\x7b' ∉ pre.toList) (hpre2 : '#' ∉ pre.toList)
    (hpost : '#' ∉ post.toList) :
    simpleTemplateEngine (pre ++ mkToken segs ++ post) ctx
      = pre ++ mkToken segs ++ simpleTemplateEngine post ctx := by
  rw [engine_token ctx pre post segs hwf hne hpre1 hpre2 hpost]
  have hr : renderToken ctx segs
      = openBracesChars ++ dottedPath segs ++ closeBracesChars := by
    unfold renderToken
    rw [hres]
  rw [hr]
  rfl

/-- Witness for C7: the unresolvable path foo.bar stays literal while the
rest of the template still renders. -/
theorem unresolved_token_left_witness :
    getNestedValue (JValue.vobj [("name", JValue.vstr "x")]) ["foo", "bar"] = none
    ∧ simpleTemplateEngine ("A " ++ mkToken ["foo", "bar"] ++ " B")
        (JValue.vobj [("name", JValue.vstr "x")])
      = "A " ++ mkToken ["foo", "bar"]
        ++ simpleTemplateEngine " B" (JValue.vobj [("name", JValue.vstr "x")]) :=
  ⟨rfl,
   unresolved_token_left (JValue.vobj [("name", JValue.vstr "x")]) "A " " B" ["foo", "bar"]
     (by decide) (by decide) rfl (by decide) (by decide) (by decide)⟩

/-- C10: a substitution token whose dotted path resolves to the value null
(present, as opposed to absent) is replaced by the string "null" in the
output — only undefined paths are preserved literally. -/
theorem null_token_stringified (ctx : JValue) (pre post : String) (segs : List String)
    (hwf : ∀ s ∈ segs, s.toList ≠ [] ∧ ∀ c ∈ s.toList, wordChar c = true)
    (hne : segs ≠ [])
    (hres : getNestedValue ctx segs = some JValue.vnull)
    (hpre1 : '\x7b' ∉ pre.toList) (hpre2 : '#' ∉ pre.toList)
    (hpost : '#' ∉ post.toList) :
    simpleTemplateEngine (pre ++ mkToken segs ++ post) ctx
      = pre ++ "null" ++ simpleTemplateEngine post ctx := by
  rw [engine_token ctx pre post segs hwf hne hpre1 hpre2 hpost]
  have hr : renderToken ctx segs = ("null" : String).toList := by
    unfold renderToken
    rw [hres]
    rfl
  rw [hr, mk_toList]

/-- Witness for C10: a path resolving to null renders as the text null. -/
theorem null_token_stringified_witness :
    getNestedValue (JValue.vobj [("user", JValue.vobj [("nickname", JValue.vnull)])])
        ["user", "nickname"] = some JValue.vnull
    ∧ simpleTemplateEngine ("A " ++ mkToken ["user", "nickname"] ++ " B")
        (JValue.vobj [("user", JValue.vobj [("nickname", JValue.vnull)])])
      = "A " ++ "null"
        ++ simpleTemplateEngine " B"
            (JValue.vobj [("user", JValue.vobj [("nickname", JValue.vnull)])]) :=
  ⟨rfl,
   null_token_stringified
     (JValue.vobj [("user", JValue.vobj [("nickname", JValue.vnull)])]) "A " " B"
     ["user", "nickname"] (by decide) (by decide) rfl (by decide) (by decide) (by decide)⟩

/-- C8: rendering a FileTemplate whose template name is absent from the
registry does not fail: it returns the visible placeholder comment naming
the missing template. -/
theorem renderTemplate_missing (registry : List (String × String)) (ft : FileTemplate)
    (intentJ stackJ : JValue) (overrides : List (String × JValue))
    (h : registry.lookup ft.template = none) :
    renderTemplate registry ft intentJ stackJ overrides
      = "# Template \x27" ++ ft.template ++ "\x27 not found\n" := by
  unfold renderTemplate
  rw [h]

/-- Witness for C8: a registry holding only readme, asked for the template
named missing. -/
theorem renderTemplate_missing_witness :
    ([("readme", "Hi")] : List (String × String)).lookup "missing" = none
    ∧ renderTemplate [("readme", "Hi")] { path := "a.md", template := "missing" }
        (JValue.vobj []) (JValue.vobj []) []
      = "# Template \x27" ++ "missing" ++ "\x27 not found\n" :=
  ⟨rfl,
   renderTemplate_missing [("readme", "Hi")] { path := "a.md", template := "missing" }
     (JValue.vobj []) (JValue.vobj []) [] rfl⟩

end IntentKit

